import Mathlib

/-!
Verification of the crawl-and-resume engine of the royal-road-archiver
repository (`src/core/crawler.py`), as a shallow embedding in Lean 4.

The embedding follows the Python source function by function:
* `load_download_status` embeds `_load_download_status` (crawler.py:17-45),
  over a small JSON value type and an abstract file state.
* `sanitize_filename` embeds `_sanitize_filename` (crawler.py:381-393).
* `parse_chapter_title` embeds the title-extraction cascade of
  `_parse_chapter_html` (crawler.py:302-331); the BeautifulSoup selector
  results are inputs (a `TitleSoup` record of optional matched texts).
* `crawlStep` / `crawlRun` / `download_story` embed the download loop of
  `download_story` (crawler.py:396-571).  Network responses, parsed pages,
  timestamps and file-write success are supplied by a `World` function;
  every call to `_save_download_status` is logged in `saves`, and every
  call to `_download_chapter_html` is logged in `fetches`, so that the
  persisted-ledger and fetch-count claims can be stated.

Python truthiness of optional strings (`if not current_chapter_url`) is
modelled by `optTruthy`; Python `str.strip()` by `pyStrip` over the
whitespace set that Python's `str` treats as space.
-/

/-- The whitespace characters recognised by Python's `str.strip()` and by
the regex class `\s` on `str` patterns (ASCII whitespace including
`\x0b`/`\x0c`, the C1 separators, and the Unicode space characters). -/
def pySpaceChars : List Char :=
  [' ', '\t', '\n', '\r', '\x0b', '\x0c',
   '\x1c', '\x1d', '\x1e', '\x1f', '\x85', '\xa0',
   ' ', ' ', ' ', ' ', ' ', ' ', ' ',
   ' ', ' ', ' ', ' ', ' ', ' ', ' ',
   ' ', ' ', '　']

/-- Whether a character counts as whitespace for Python string operations. -/
def isPySpace (c : Char) : Bool := pySpaceChars.contains c

/-- Python `str.strip()`: remove leading and trailing whitespace. -/
def pyStrip (s : String) : String :=
  String.mk (((s.data.dropWhile isPySpace).reverse.dropWhile isPySpace).reverse)

/-- Python truthiness of an optional string (`None` and `""` are falsy). -/
def optTruthy : Option String → Bool
  | none => false
  | some s => !(s == "")

/-- Whether a string is empty or whitespace-only, i.e. `s.strip()` is falsy
in Python.  Used by the resume decision at crawler.py:445. -/
def isBlankStr (s : String) : Bool := s.data.all isPySpace

/-! ## JSON values and the ledger loader (crawler.py:17-45) -/

/-- A JSON value, as produced by Python's `json.load`. -/
inductive JValue where
  | jnull : JValue
  | jbool : Bool → JValue
  | jnum : Int → JValue
  | jstr : String → JValue
  | jarr : List JValue → JValue
  | jobj : List (String × JValue) → JValue

/-- The state of the metadata file on disk as seen by
`_load_download_status`: missing, unreadable (`IOError`), syntactically
invalid (`json.JSONDecodeError`), or parsed into a JSON value. -/
inductive FileState where
  | absent : FileState
  | unreadable : FileState
  | badJson : FileState
  | content : JValue → FileState

/-- The `default_status` dictionary built at crawler.py:22-29. -/
def default_status : JValue :=
  .jobj [("overview_url", .jnull),
         ("story_title", .jnull),
         ("author_name", .jnull),
         ("last_downloaded_url", .jnull),
         ("next_expected_chapter_url", .jnull),
         ("chapters", .jarr [])]

/-- The validation test at crawler.py:36:
`isinstance(data, dict) and "chapters" in data`. -/
def is_dict_with_chapters : JValue → Bool
  | .jobj kvs => kvs.any (fun kv => kv.1 = "chapters")
  | _ => false

/-- Embedding of `_load_download_status` (crawler.py:17-45): return the
parsed value when it is a dict containing `"chapters"`, and the default
structure when the file is absent, unreadable, corrupt, or malformed. -/
def load_download_status : FileState → JValue
  | .absent => default_status
  | .unreadable => default_status
  | .badJson => default_status
  | .content v => if is_dict_with_chapters v then v else default_status

/-! ## Filename sanitisation (crawler.py:381-393) -/

/-- The characters removed by `re.sub(r'[\\/*?:"<>|]', "", filename)`. -/
def badFilenameChars : List Char := ['\\', '/', '*', '?', ':', '"', '<', '>', '|']

/-- Replace every run of whitespace by a single underscore, as
`re.sub(r'\s+', '_', ...)` does.  `inRun` records whether the previous
character was part of a whitespace run already rewritten. -/
def collapseSpacesAux : Bool → List Char → List Char
  | _, [] => []
  | inRun, c :: rest =>
    if isPySpace c then
      (if inRun then [] else ['_']) ++ collapseSpacesAux true rest
    else
      c :: collapseSpacesAux false rest

/-- Drop a single leading dot, the `^\.` alternative of crawler.py:390. -/
def dropLeadingDot : List Char → List Char
  | '.' :: rest => rest
  | l => l

/-- Collapse every maximal run of dots to a single dot.  On the output of
`re.sub(r'^\.|\.$', ...)` this agrees with `re.sub(r'\.{2,}', '.', ...)`,
since a run of length one is left unchanged either way. -/
def collapseDotsAux : Bool → List Char → List Char
  | _, [] => []
  | inRun, c :: rest =>
    if c = '.' then
      (if inRun then [] else ['.']) ++ collapseDotsAux true rest
    else
      c :: collapseDotsAux false rest

/-- Embedding of `_sanitize_filename` (crawler.py:381-393): remove the
problematic filename characters, rewrite whitespace runs to `_`, trim one
leading and one trailing dot, collapse dot runs, and keep at most the
first 100 characters. -/
def sanitize_filename (filename : String) : String :=
  let noBad := filename.data.filter (fun c => !(badFilenameChars.contains c))
  let noSpace := collapseSpacesAux false noBad
  let noLead := dropLeadingDot noSpace
  let noEdge := (dropLeadingDot noLead.reverse).reverse
  let noRuns := collapseDotsAux false noEdge
  String.mk (noRuns.take 100)

/-! ## Title extraction cascade (crawler.py:302-331) -/

/-- The BeautifulSoup query results that the title cascade of
`_parse_chapter_html` inspects: the text of the first match of each
selector tried at crawler.py:304-310 (`none` when no element matched). -/
structure TitleSoup where
  h1Specific : Option String
  h1ChapterContent : Option String
  h1General : Option String
  pageTitle : Option String
deriving Repr, DecidableEq

/-- `title_text.split('|')[0]` for a character list: the longest prefix
before the first `'|'` (the whole list when no bar occurs). -/
def beforeBar (l : List Char) : List Char := l.takeWhile (fun c => c ≠ '|')

/-- Python `title_text.split(' - ')`: cut at every non-overlapping
occurrence of the three-character separator, scanning left to right. -/
def splitDash : List Char → List Char → List (List Char)
  | ' ' :: '-' :: ' ' :: rest, acc => acc.reverse :: splitDash rest []
  | c :: rest, acc => splitDash rest (c :: acc)
  | [], acc => [acc.reverse]

/-- The `<title>`-tag fallback of the title cascade (crawler.py:320-331):
take the part before the first `|`, strip it, split on `' - '`, and when
there are at least two parts and the first is strictly shorter than the
second return the stripped first part, otherwise the whole stripped text. -/
def title_from_page_title (t : String) : String :=
  let titleText := pyStrip (String.mk (beforeBar t.data))
  let parts := splitDash titleText.data []
  match parts with
  | p0 :: p1 :: _ =>
    if p0.length < p1.length then pyStrip (String.mk p0) else titleText
  | _ => titleText

/-- Embedding of the title cascade of `_parse_chapter_html`
(crawler.py:312-331): first matching selector wins; the `<title>` tag is
only consulted when no heading-level element matched. -/
def parse_chapter_title (d : TitleSoup) : String :=
  match d.h1Specific with
  | some t => pyStrip t
  | none =>
    match d.h1ChapterContent with
    | some t => pyStrip t
    | none =>
      match d.h1General with
      | some t => pyStrip t
      | none =>
        match d.pageTitle with
        | some t => title_from_page_title t
        | none => "Unknown Title"

/-! ## The download loop (crawler.py:396-571) -/

/-- One chapter entry of the metadata file, as built at crawler.py:538-545. -/
structure ChapterRecord where
  url : String
  title : String
  filename : String
  download_timestamp : String
  next_url_from_page : Option String
  download_order : Nat
deriving Repr, DecidableEq

/-- The typed contents of the metadata dictionary manipulated by
`download_story` (the `default_status` shape of crawler.py:22-29). -/
structure Ledger where
  overview_url : Option String
  story_title : Option String
  author_name : Option String
  last_downloaded_url : Option String
  next_expected_chapter_url : Option String
  chapters : List ChapterRecord
deriving Repr, DecidableEq

/-- The result of `_parse_chapter_html` for one page (crawler.py:375-379). -/
structure Page where
  title : String
  contentHtml : String
  nextChapterUrl : Option String
deriving Repr, DecidableEq

/-- What the outside world answers to `_download_chapter_html` for a URL:
either a fetch failure (`None` after an HTTP/connection/timeout error,
crawler.py:62-80), or a response carrying the post-redirect URL
(`response.url`), the `content-type` header, the timestamp the chapter
record will receive, whether writing the chapter file will succeed
(crawler.py:511-535), and the parse result for the body. -/
inductive FetchOutcome where
  | fetchFail : FetchOutcome
  | fetchOk (resolvedUrl contentType timestamp : String) (writeOk : Bool) (page : Page) :
      FetchOutcome

/-- The environment of one crawl: the behaviour of every URL. -/
def World : Type := String → FetchOutcome

/-- The mutable state of the download loop: the in-memory metadata, the
current URL (`None` once the loop decided to end), the chapter counter,
plus two logs recording every URL passed to `_download_chapter_html` and
every ledger value passed to `_save_download_status`. -/
structure CrawlState where
  ledger : Ledger
  current : Option String
  counter : Nat
  fetches : List String
  saves : List Ledger
deriving Repr, DecidableEq

/-- Outcome of one iteration of the `while` loop: `stop` when the body
executed `break` (or set the cursor to a falsy value), `next` when it
continues with a new state. -/
inductive StepResult where
  | stop : CrawlState → StepResult
  | next : CrawlState → StepResult
deriving Repr, DecidableEq

/-- The linear scan for an already-downloaded chapter (crawler.py:458-462):
first entry whose `url` equals the current URL. -/
def findEntry (chapters : List ChapterRecord) (u : String) : Option ChapterRecord :=
  chapters.find? (fun e => e.url == u)

/-- Substring test on character lists, used for Python's
`'text/html' not in content_type` (crawler.py:484). -/
def containsSeq (pat : List Char) : List Char → Bool
  | [] => pat.isEmpty
  | c :: rest => pat.isPrefixOf (c :: rest) || containsSeq pat rest

/-- Python's `str.title()` restricted to ASCII letters: a letter is
uppercased when the previous character is not a letter, lowercased
otherwise (crawler.py:498 applies it to a URL slug). -/
def pyTitleAux : Bool → List Char → List Char
  | _, [] => []
  | prevCased, c :: rest =>
    (if prevCased then c.toLower else c.toUpper) :: pyTitleAux c.isAlpha rest

/-- Python `str.title()` over a whole string. -/
def pyTitle (s : String) : String := String.mk (pyTitleAux false s.data)

/-- Python's `f"{n:03d}"`: decimal digits left-padded with zeros to width 3. -/
def pad3 (n : Nat) : String :=
  let s := toString n
  if s.length < 3 then String.mk (List.replicate (3 - s.length) '0') ++ s else s

/-- The display title chosen at crawler.py:497-502: the parsed title, or
a fallback built from the slug override (first chapter only) or the
chapter counter when parsing produced the `"Unknown Title"` placeholder. -/
def finalTitleFor (slug : Option String) (counter : Nat) (parsedTitle : String) : String :=
  if parsedTitle == "Unknown Title" && counter == 1 && optTruthy slug then
    pyTitle (String.mk ((slug.getD "").data.map (fun c => if c = '-' then ' ' else c)))
      ++ " - Chapter " ++ toString counter
  else if parsedTitle == "Unknown Title" then
    "Chapter " ++ toString counter
  else parsedTitle

/-- The chapter record appended at crawler.py:538-545, including the
filename generation of crawler.py:506-507. -/
def mkChapterRecord (slug : Option String) (counter : Nat) (u ts : String)
    (page : Page) : ChapterRecord :=
  let finalTitle := finalTitleFor slug counter page.title
  let safeSeg := sanitize_filename
    (if finalTitle == "" then "chapter_" ++ pad3 counter else finalTitle)
  let filename :=
    "chapter_" ++ pad3 counter ++ "_" ++ String.mk (safeSeg.data.take 100) ++ ".html"
  { url := u, title := page.title, filename := filename,
    download_timestamp := ts,
    next_url_from_page := page.nextChapterUrl,
    download_order := counter }

/-- One iteration of the `while current_chapter_url:` body of
`download_story` (crawler.py:454-568), for a truthy current URL `u`.
Filesystem paths and the chapter-file HTML body are outside the model;
whether the file write succeeds comes from the `World`. -/
def crawlStep (w : World) (slug : Option String) (u : String) (s : CrawlState) : StepResult :=
  match findEntry s.ledger.chapters u with
  | some entry =>
    let cur := entry.next_url_from_page
    if optTruthy cur then .next { s with current := cur }
    else .stop { s with current := cur }
  | none =>
    match w u with
    | .fetchFail =>
      let L := { s.ledger with next_expected_chapter_url := some u }
      .stop { s with
          ledger := L, fetches := s.fetches ++ [u], saves := s.saves ++ [L] }
    | .fetchOk resolved ctype ts writeOk page =>
      let fetches1 := s.fetches ++ [u]
      if !(containsSeq "text/html".data (ctype.data.map Char.toLower)) then
        let L := { s.ledger with next_expected_chapter_url := none }
        .stop { s with
            ledger := L, fetches := fetches1, saves := s.saves ++ [L] }
      else
        if !writeOk then
          let L := { s.ledger with next_expected_chapter_url := some u }
          .stop { s with
              ledger := L, fetches := fetches1, saves := s.saves ++ [L] }
        else
          let newRec : ChapterRecord := mkChapterRecord slug s.counter u ts page
          let L1 := { s.ledger with
              chapters := s.ledger.chapters ++ [newRec],
              last_downloaded_url := some u,
              next_expected_chapter_url := page.nextChapterUrl }
          let cur := page.nextChapterUrl
          if !(optTruthy cur) then
            .stop { s with
                ledger := L1, current := cur, fetches := fetches1,
                saves := s.saves ++ [L1] }
          else if cur == some resolved then
            let L2 := { L1 with next_expected_chapter_url := none }
            .stop { s with
                ledger := L2, current := cur, fetches := fetches1,
                saves := s.saves ++ [L1, L2] }
          else
            .next { s with
                ledger := L1, current := cur, counter := s.counter + 1,
                fetches := fetches1, saves := s.saves ++ [L1] }

/-- The `while current_chapter_url:` loop (crawler.py:454), with explicit
fuel; `none` means the loop had not terminated within `fuel` iterations. -/
def crawlRun (w : World) (slug : Option String) : Nat → CrawlState → Option CrawlState
  | 0, _ => none
  | fuel + 1, s =>
    match s.current with
    | none => some s
    | some u =>
      if u == "" then some s
      else
        match crawlStep w slug u s with
        | .stop s1 => some s1
        | .next s1 => crawlRun w slug fuel s1

/-- The once-only population of `overview_url`, `story_title` and
`author_name` (crawler.py:432-437): each is filled only when currently
null and the corresponding argument is truthy. -/
def setupLedger (loaded : Ledger) (ov st au : Option String) : Ledger :=
  let L1 := if loaded.overview_url.isNone && optTruthy ov then
      { loaded with overview_url := ov } else loaded
  let L2 := if L1.story_title.isNone && optTruthy st then
      { L1 with story_title := st } else L1
  if L2.author_name.isNone && optTruthy au then
      { L2 with author_name := au } else L2

/-- The start-URL resolution of `download_story` (crawler.py:443-450):
resume from the stored cursor when it is a string whose `strip()` is
non-empty, otherwise start from the caller-supplied first-chapter URL and
reset `chapters` to the empty list. -/
def resolveStart (L : Ledger) (firstUrl : String) : String × Ledger :=
  match L.next_expected_chapter_url with
  | some s => if isBlankStr s then (firstUrl, { L with chapters := [] }) else (s, L)
  | none => (firstUrl, { L with chapters := [] })

/-- Embedding of `download_story` (crawler.py:396-571) from the point the
metadata has been loaded: merge the once-only fields, perform the initial
save when any of the three optional arguments is truthy (crawler.py:439),
resolve the start URL, then run the download loop. -/
def download_story (w : World) (fuel : Nat) (first_chapter_url : String)
    (story_slug_override : Option String)
    (overview_url story_title author_name : Option String)
    (loaded : Ledger) : Option CrawlState :=
  let L0 := setupLedger loaded overview_url story_title author_name
  let initSaves :=
    if optTruthy overview_url || optTruthy story_title || optTruthy author_name
    then [L0] else []
  let startResolved := resolveStart L0 first_chapter_url
  crawlRun w story_slug_override fuel
    { ledger := startResolved.2, current := some startResolved.1,
      counter := startResolved.2.chapters.length + 1,
      fetches := [], saves := initSaves }

/-! ## Concrete artifacts used by witnesses and counterexamples -/

/-- A ledger with every field null and no chapters, the typed counterpart
of `default_status`. -/
def emptyLedger : Ledger :=
  { overview_url := none, story_title := none, author_name := none,
    last_downloaded_url := none, next_expected_chapter_url := none,
    chapters := [] }

/-- A sample chapter record whose stored next link points to `"B"`. -/
def sampleRec : ChapterRecord :=
  { url := "A", title := "T", filename := "f.html", download_timestamp := "ts",
    next_url_from_page := some "B", download_order := 1 }

/-- The projections of a final crawl state that the concrete-run theorems
inspect: the final current URL, the fetch log, and the cursor of every
ledger value passed to `_save_download_status`. -/
def runSummary (s : CrawlState) : Option String × List String × List (Option String) :=
  (s.current, s.fetches, s.saves.map Ledger.next_expected_chapter_url)

/-! ## C1: the ledger loader falls back to the default structure -/

/-- The bad inputs named by the claim: file absent, file not valid JSON,
or parsed value not a dict containing the key `"chapters"`. -/
def badMetadataInput (fs : FileState) : Prop :=
  fs = .absent ∨ fs = .badJson ∨
    ∃ v, fs = .content v ∧ is_dict_with_chapters v = false

/-- C1 (confirmed).  For every metadata file state that is absent, invalid
JSON, or a parsed value that is not a dict containing `"chapters"`,
`_load_download_status` returns the structurally-valid default ledger:
`overview_url`, `story_title`, `author_name`, `last_downloaded_url` and
`next_expected_chapter_url` all null and `chapters` the empty list.  The
embedding `load_download_status` is a total function, so no exception
reaches the caller on any of these inputs. -/
theorem load_returns_default_on_bad_input (fs : FileState)
    (h : badMetadataInput fs) :
    load_download_status fs = default_status ∧
    default_status =
      .jobj [("overview_url", .jnull), ("story_title", .jnull),
             ("author_name", .jnull), ("last_downloaded_url", .jnull),
             ("next_expected_chapter_url", .jnull), ("chapters", .jarr [])] := by
  refine ⟨?_, rfl⟩
  rcases h with h | h | ⟨v, h, hv⟩
  · rw [h]; rfl
  · rw [h]; rfl
  · rw [h]; simp [load_download_status, hv]

/-- Witness for C1: the corrupt-file case, evaluated concretely. -/
theorem load_returns_default_on_bad_input_witness :
    load_download_status .badJson = default_status :=
  (load_returns_default_on_bad_input .badJson (Or.inr (Or.inl rfl))).1

/-! ## C2: start-URL resolution -/

/-- A loaded ledger whose resume cursor is the whitespace-only string
`" "`: a non-empty string, but blank after `strip()`. -/
def blankCursorLedger : Ledger :=
  { emptyLedger with next_expected_chapter_url := some " ", chapters := [sampleRec] }

/-- Counterexample for C2 as stated.  The loaded cursor `" "` is a
non-empty string, yet the crawl does not begin at `" "`: it starts from
the caller-supplied URL `"F"` and resets `chapters` to empty, because
crawler.py:445 additionally requires `.strip()` to be truthy. -/
theorem resolve_start_blank_cursor_counterexample :
    blankCursorLedger.next_expected_chapter_url = some " " ∧
    (" " : String) ≠ "" ∧
    resolveStart blankCursorLedger "F" = ("F", { blankCursorLedger with chapters := [] }) ∧
    ("F" : String) ≠ " " ∧
    blankCursorLedger.chapters ≠ [] := by
  refine ⟨rfl, by decide, by rfl, by decide, by decide⟩

/-- C2 (amended).  The crawl resumes from the stored cursor, keeping the
existing `chapters` list, exactly when the cursor is a string that is
non-empty after stripping whitespace; when the cursor is null, empty, or
whitespace-only, the crawl begins at the caller-supplied first-chapter
URL with `chapters` reset to the empty list. -/
theorem resume_iff_cursor_nonblank (L : Ledger) (firstUrl : String) :
    (∀ s, L.next_expected_chapter_url = some s → isBlankStr s = false →
      resolveStart L firstUrl = (s, L)) ∧
    ((L.next_expected_chapter_url = none ∨
      ∃ s, L.next_expected_chapter_url = some s ∧ isBlankStr s = true) →
      resolveStart L firstUrl = (firstUrl, { L with chapters := [] })) := by
  constructor
  · intro s hs hb
    simp [resolveStart, hs, hb]
  · rintro (h | ⟨s, hs, hb⟩)
    · simp [resolveStart, h]
    · simp [resolveStart, hs, hb]

/-- Witness for C2: a concrete resume and a concrete fresh start. -/
theorem resume_iff_cursor_nonblank_witness :
    resolveStart { emptyLedger with
      next_expected_chapter_url := some "C", chapters := [sampleRec] } "F"
      = ("C", { emptyLedger with
          next_expected_chapter_url := some "C", chapters := [sampleRec] }) ∧
    resolveStart blankCursorLedger "F" = ("F", { blankCursorLedger with chapters := [] }) :=
  ⟨(resume_iff_cursor_nonblank _ "F").1 "C" rfl (by decide),
   (resume_iff_cursor_nonblank blankCursorLedger "F").2
     (Or.inr ⟨" ", rfl, by decide⟩)⟩

/-! ## C9: the title-tag fallback -/

/-- Counterexample for C9 as stated.  A `<title>` text whose remainder
before `|` splits into two dash-separated segments with the shorter one
second: the cascade returns the whole remainder, not the shorter
(chapter-like) segment, because crawler.py:328 only prefers `parts[0]`
when it is the strictly shorter one. -/
theorem title_fallback_keeps_longer_counterexample :
    parse_chapter_title
      { h1Specific := none, h1ChapterContent := none, h1General := none,
        pageTitle := some "Longer Story Name - Ch1 | Royal Road" }
      = "Longer Story Name - Ch1" ∧
    ("Longer Story Name - Ch1" : String) ≠ "Ch1" := by
  exact ⟨by decide, by decide⟩

/-- C9 (amended).  When no heading-level element matched and the title is
taken from the `<title>` element, the text is truncated at the first `|`
and stripped; if it then splits on `' - '` into at least two segments and
the FIRST segment is strictly shorter than the second, the stripped first
segment is returned, otherwise the whole truncated text is returned (the
shorter segment is not preferred when it comes second). -/
theorem title_fallback_prefers_shorter_first_segment
    (t : String) (p0 p1 : List Char) (rest : List (List Char))
    (hsplit : splitDash (pyStrip (String.mk (beforeBar t.data))).data [] = p0 :: p1 :: rest) :
    (p0.length < p1.length →
      parse_chapter_title
        { h1Specific := none, h1ChapterContent := none, h1General := none,
          pageTitle := some t } = pyStrip (String.mk p0)) ∧
    (¬ p0.length < p1.length →
      parse_chapter_title
        { h1Specific := none, h1ChapterContent := none, h1General := none,
          pageTitle := some t } = pyStrip (String.mk (beforeBar t.data))) := by
  constructor
  · intro hlt
    simp [parse_chapter_title, title_from_page_title, hsplit, hlt]
  · intro hge
    simp [parse_chapter_title, title_from_page_title, hsplit, hge]

/-- Witness for C9: with the shorter segment first, the stripped first
segment is returned. -/
theorem title_fallback_prefers_shorter_first_segment_witness :
    parse_chapter_title
      { h1Specific := none, h1ChapterContent := none, h1General := none,
        pageTitle := some "Ch1 - Longer Story Name | Royal Road" } = "Ch1" := by
  have h := (title_fallback_prefers_shorter_first_segment
    "Ch1 - Longer Story Name | Royal Road"
    "Ch1".data "Longer Story Name".data [] (by decide)).1 (by decide)
  exact h.trans (by decide)

/-! ## C10: the filename sanitizer -/

/-- A character is safe for the claim's purposes when it is none of the
nine forbidden filename characters and not whitespace. -/
def safeChar (c : Char) : Bool := !(badFilenameChars.contains c) && !(isPySpace c)

/-- Every character produced by `collapseSpacesAux` is an underscore or a
non-whitespace character of the input. -/
theorem mem_collapseSpacesAux {c : Char} :
    ∀ {l : List Char} {b : Bool}, c ∈ collapseSpacesAux b l →
      c = '_' ∨ (c ∈ l ∧ isPySpace c = false) := by
  intro l
  induction l with
  | nil => intro b h; simp [collapseSpacesAux] at h
  | cons d rest ih =>
    intro b h
    by_cases hd : isPySpace d = true
    · rw [collapseSpacesAux, if_pos hd] at h
      rcases List.mem_append.mp h with h1 | h1
      · left
        cases b <;> simpa using h1
      · rcases ih h1 with h2 | ⟨h2, h3⟩
        · exact Or.inl h2
        · exact Or.inr ⟨List.mem_cons_of_mem d h2, h3⟩
    · rw [collapseSpacesAux, if_neg hd] at h
      rcases List.mem_cons.mp h with h1 | h1
      · subst h1
        exact Or.inr ⟨List.mem_cons_self c rest, by simpa using hd⟩
      · rcases ih h1 with h2 | ⟨h2, h3⟩
        · exact Or.inl h2
        · exact Or.inr ⟨List.mem_cons_of_mem d h2, h3⟩

/-- Every character produced by `collapseDotsAux` is a dot or a character
of the input. -/
theorem mem_collapseDotsAux {c : Char} :
    ∀ {l : List Char} {b : Bool}, c ∈ collapseDotsAux b l → c = '.' ∨ c ∈ l := by
  intro l
  induction l with
  | nil => intro b h; simp [collapseDotsAux] at h
  | cons d rest ih =>
    intro b h
    by_cases hd : d = '.'
    · rw [collapseDotsAux, if_pos hd] at h
      rcases List.mem_append.mp h with h1 | h1
      · left
        cases b <;> simpa using h1
      · rcases ih h1 with h2 | h2
        · exact Or.inl h2
        · exact Or.inr (List.mem_cons_of_mem d h2)
    · rw [collapseDotsAux, if_neg hd] at h
      rcases List.mem_cons.mp h with h1 | h1
      · subst h1; exact Or.inr (List.mem_cons_self c rest)
      · rcases ih h1 with h2 | h2
        · exact Or.inl h2
        · exact Or.inr (List.mem_cons_of_mem d h2)

/-- `dropLeadingDot` only removes characters. -/
theorem dropLeadingDot_subset (l : List Char) : dropLeadingDot l ⊆ l := by
  match l with
  | [] => exact fun _ h => h
  | c :: rest =>
    by_cases hc : c = '.'
    · subst hc
      intro a ha
      exact List.mem_cons_of_mem _ ha
    · have : dropLeadingDot (c :: rest) = c :: rest := by
        unfold dropLeadingDot
        split
        · rename_i heq
          cases heq
          exact absurd rfl hc
        · rfl
      rw [this]
      exact fun _ h => h

/-- C10 (confirmed).  For every input string the sanitizer of chapter
filenames returns at most 100 characters, none of which is one of
`\ / * ? : " < > |` and none of which is whitespace (whitespace runs have
been rewritten to single underscores by the time of truncation). -/
theorem sanitize_filename_is_filesystem_safe (s : String) :
    (sanitize_filename s).length ≤ 100 ∧
    (sanitize_filename s).data.all safeChar = true := by
  constructor
  · show (String.mk _).length ≤ 100
    simpa [String.length] using
      (List.length_take_le 100 _)
  · rw [List.all_eq_true]
    intro c hc
    simp only [sanitize_filename] at hc
    have hc1 : c ∈ collapseDotsAux false
        ((dropLeadingDot ((dropLeadingDot (collapseSpacesAux false
          (s.data.filter (fun x => !(badFilenameChars.contains x))))).reverse)).reverse) :=
      List.take_subset 100 _ hc
    rcases mem_collapseDotsAux hc1 with h | h
    · subst h; decide
    · rw [List.mem_reverse] at h
      have h2 := dropLeadingDot_subset _ h
      rw [List.mem_reverse] at h2
      have h3 := dropLeadingDot_subset _ h2
      rcases mem_collapseSpacesAux h3 with h4 | ⟨h4, h5⟩
      · subst h4; decide
      · rcases List.mem_filter.mp h4 with ⟨_, hbad⟩
        simp [safeChar, h5]
        simpa using hbad

/-! ## Step-level facts about the download loop -/

/-- When the loop body breaks, the loop returns that state whatever the
remaining fuel is. -/
theorem crawlRun_of_stop {w : World} {slug : Option String} {u : String}
    {s s1 : CrawlState} (hcur : s.current = some u) (hu : u ≠ "")
    (hstep : crawlStep w slug u s = .stop s1) (n : Nat) :
    crawlRun w slug (n + 1) s = some s1 := by
  have hbeq : (u == "") = false := by simp [hu]
  rw [crawlRun, hcur]
  simp [hbeq, hstep]

/-- C3 (confirmed).  In every loop iteration whose current URL is not yet
recorded and whose fetch fails, the loop stops, the ledger is saved with
`next_expected_chapter_url` equal to the current URL, the chapters list
is exactly the one from before the failure, and the failed URL only
enters the fetch log, never the chapters. -/
theorem fetch_failure_checkpoints_and_stops
    (w : World) (slug : Option String) (u : String) (s : CrawlState)
    (hcur : s.current = some u) (hu : u ≠ "")
    (hnew : findEntry s.ledger.chapters u = none)
    (hfail : w u = .fetchFail) :
    ∃ s1, crawlStep w slug u s = .stop s1 ∧
      (∀ n, crawlRun w slug (n + 1) s = some s1) ∧
      s1.ledger.next_expected_chapter_url = some u ∧
      s1.ledger.chapters = s.ledger.chapters ∧
      s1.fetches = s.fetches ++ [u] ∧
      s1.saves = s.saves ++ [s1.ledger] := by
  have hstep : crawlStep w slug u s = .stop { s with
      ledger := { s.ledger with next_expected_chapter_url := some u },
      fetches := s.fetches ++ [u],
      saves := s.saves ++ [{ s.ledger with next_expected_chapter_url := some u }] } := by
    simp [crawlStep, hnew, hfail]
  exact ⟨_, hstep, crawlRun_of_stop hcur hu hstep, rfl, rfl, rfl, rfl⟩

/-- Witness for C3: a two-chapter world where the second fetch times out;
the run stops with the cursor on chapter 2 and chapter 1 still recorded. -/
def c3World : World := fun u =>
  if u == "A" then
    .fetchOk "A" "text/html" "t1" true { title := "One", contentHtml := "c1", nextChapterUrl := some "B" }
  else .fetchFail

/-- Witness for C3, applying the theorem at the state just before the
failing fetch of `"B"` in `c3World`. -/
theorem fetch_failure_checkpoints_and_stops_witness :
    ∃ s1, crawlStep c3World none "B"
        { ledger := { emptyLedger with
            chapters := [sampleRec], last_downloaded_url := some "A",
            next_expected_chapter_url := some "B" },
          current := some "B", counter := 2, fetches := ["A"], saves := [] } = .stop s1 ∧
      (∀ n, crawlRun c3World none (n + 1)
        { ledger := { emptyLedger with
            chapters := [sampleRec], last_downloaded_url := some "A",
            next_expected_chapter_url := some "B" },
          current := some "B", counter := 2, fetches := ["A"], saves := [] } = some s1) ∧
      s1.ledger.next_expected_chapter_url = some "B" ∧
      s1.ledger.chapters = [sampleRec] ∧
      s1.fetches = ["A", "B"] ∧
      s1.saves = [s1.ledger] := by
  obtain ⟨s1, h1, h2, h3, h4, h5, h6⟩ := fetch_failure_checkpoints_and_stops
    c3World none "B"
    { ledger := { emptyLedger with
        chapters := [sampleRec], last_downloaded_url := some "A",
        next_expected_chapter_url := some "B" },
      current := some "B", counter := 2, fetches := ["A"], saves := [] }
    rfl (by decide) (by decide) rfl
  exact ⟨s1, h1, h2, h3, by simpa using h4, by simpa using h5, by simpa using h6⟩

/-- C4 (confirmed).  When a not-yet-recorded URL is fetched successfully
and the page's extracted next link equals the response's resolved
(post-redirect) URL, the loop records the chapter, then stops with the
persisted cursor cleared to null (the final save); the fetch log grows by
exactly that one URL, so the self-referential page is fetched exactly
once before the crawl stops. -/
theorem self_link_stops_after_single_fetch
    (w : World) (slug : Option String) (u resolved ctype ts : String)
    (page : Page) (s : CrawlState)
    (hcur : s.current = some u) (hu : u ≠ "")
    (hnew : findEntry s.ledger.chapters u = none)
    (hfetch : w u = .fetchOk resolved ctype ts true page)
    (hhtml : containsSeq "text/html".data (ctype.data.map Char.toLower) = true)
    (hself : page.nextChapterUrl = some resolved)
    (hres : resolved ≠ "") :
    ∃ s1 r1, crawlStep w slug u s = .stop s1 ∧
      (∀ n, crawlRun w slug (n + 1) s = some s1) ∧
      s1.fetches = s.fetches ++ [u] ∧
      s1.ledger.next_expected_chapter_url = none ∧
      s1.ledger.chapters = s.ledger.chapters ++ [r1] ∧
      r1.url = u ∧ r1.next_url_from_page = some resolved ∧
      s1.saves.getLast? = some s1.ledger := by
  have hbeq : (resolved == "") = false := by simp [hres]
  cases hE : crawlStep w slug u s with
  | next s1 =>
    exfalso
    simp [crawlStep, optTruthy, hnew, hfetch, hhtml, hself, hbeq] at hE
  | stop s1 =>
    have hE2 := hE
    simp [crawlStep, optTruthy, hnew, hfetch, hhtml, hself, hbeq] at hE2
    subst hE2
    refine ⟨_, mkChapterRecord slug s.counter u ts page, rfl, ?_, ?_, ?_, ?_, ?_, ?_, ?_⟩
    · exact crawlRun_of_stop hcur hu hE
    · rfl
    · rfl
    · rfl
    · rfl
    · exact hself
    · simp

/-- A world with a single self-referencing page: `"L"` is served and its
extracted next link is `"L"` itself. -/
def c4World : World := fun u =>
  if u == "L" then
    .fetchOk "L" "text/html" "t" true
      { title := "Loop", contentHtml := "c", nextChapterUrl := some "L" }
  else .fetchFail

/-- A fresh crawl state about to process the self-referencing page. -/
def c4Start : CrawlState :=
  { ledger := emptyLedger, current := some "L", counter := 1,
    fetches := [], saves := [] }

/-- Witness for C4: one fetch of the self-referencing page, then stop with
the cursor cleared. -/
theorem self_link_stops_after_single_fetch_witness :
    ∃ s1 r1, crawlStep c4World none "L" c4Start = .stop s1 ∧
      (∀ n, crawlRun c4World none (n + 1) c4Start = some s1) ∧
      s1.fetches = c4Start.fetches ++ ["L"] ∧
      s1.ledger.next_expected_chapter_url = none ∧
      s1.ledger.chapters = c4Start.ledger.chapters ++ [r1] ∧
      r1.url = "L" ∧ r1.next_url_from_page = some "L" ∧
      s1.saves.getLast? = some s1.ledger :=
  self_link_stops_after_single_fetch c4World none "L" "L" "text/html" "t"
    { title := "Loop", contentHtml := "c", nextChapterUrl := some "L" }
    c4Start rfl (by decide) rfl rfl (by decide) rfl (by decide)

/-- C5 (amended).  When the loop reaches the natural end of the story by
downloading a chapter whose extracted next link is null, it records the
chapter, saves the ledger with `next_expected_chapter_url` null as the
final persisted state, and ends in the Done state (`current` cleared).
The claim as stated is refuted for the other Done path: ending because
the current URL is already recorded with a null stored next link performs
no save at all, so the file keeps whatever cursor was last persisted (see
the counterexample). -/
theorem natural_end_clears_cursor
    (w : World) (slug : Option String) (u resolved ctype ts : String)
    (page : Page) (s : CrawlState)
    (hcur : s.current = some u) (hu : u ≠ "")
    (hnew : findEntry s.ledger.chapters u = none)
    (hfetch : w u = .fetchOk resolved ctype ts true page)
    (hhtml : containsSeq "text/html".data (ctype.data.map Char.toLower) = true)
    (hnone : page.nextChapterUrl = none) :
    ∃ s1 r1, crawlStep w slug u s = .stop s1 ∧
      (∀ n, crawlRun w slug (n + 1) s = some s1) ∧
      s1.current = none ∧
      s1.ledger.next_expected_chapter_url = none ∧
      s1.saves = s.saves ++ [s1.ledger] ∧
      s1.ledger.chapters = s.ledger.chapters ++ [r1] ∧ r1.url = u := by
  cases hE : crawlStep w slug u s with
  | next s1 =>
    exfalso
    simp [crawlStep, optTruthy, hnew, hfetch, hhtml, hnone] at hE
  | stop s1 =>
    have hE2 := hE
    simp [crawlStep, optTruthy, hnew, hfetch, hhtml, hnone] at hE2
    subst hE2
    refine ⟨_, mkChapterRecord slug s.counter u ts page, rfl, ?_, ?_, ?_, ?_, ?_, ?_⟩
    · exact crawlRun_of_stop hcur hu hE
    · rfl
    · rfl
    · rfl
    · rfl
    · rfl

/-- A world with a single final chapter: `"E"` is served and has no next
link. -/
def c5World : World := fun u =>
  if u == "E" then
    .fetchOk "E" "text/html" "t" true
      { title := "End", contentHtml := "c", nextChapterUrl := none }
  else .fetchFail

/-- A fresh crawl state about to process the final chapter. -/
def c5Start : CrawlState :=
  { ledger := emptyLedger, current := some "E", counter := 1,
    fetches := [], saves := [] }

/-- Witness for C5: downloading the last chapter persists a null cursor. -/
theorem natural_end_clears_cursor_witness :
    ∃ s1 r1, crawlStep c5World none "E" c5Start = .stop s1 ∧
      (∀ n, crawlRun c5World none (n + 1) c5Start = some s1) ∧
      s1.current = none ∧
      s1.ledger.next_expected_chapter_url = none ∧
      s1.saves = c5Start.saves ++ [s1.ledger] ∧
      s1.ledger.chapters = c5Start.ledger.chapters ++ [r1] ∧ r1.url = "E" :=
  natural_end_clears_cursor c5World none "E" "E" "text/html" "t"
    { title := "End", contentHtml := "c", nextChapterUrl := none }
    c5Start rfl (by decide) rfl rfl (by decide) rfl

/-- A chapter record whose stored next link is null, as written by a run
that ended at the natural end of the story. -/
def recANoNext : ChapterRecord :=
  { url := "A", title := "T", filename := "f.html", download_timestamp := "ts",
    next_url_from_page := none, download_order := 1 }

/-- A loadable ledger whose cursor points at the already-recorded chapter
`"A"`, whose stored next link is null. -/
def staleCursorLedger : Ledger :=
  { emptyLedger with
      next_expected_chapter_url := some "A", chapters := [recANoNext] }

/-- A world in which every fetch fails; the counterexample run never
fetches, so the world is irrelevant. -/
def failWorld : World := fun _ => .fetchFail

/-- Counterexample for C5 as stated.  Resuming from `staleCursorLedger`
with a truthy `overview_url` argument, the run performs the initial save
(cursor `"A"`), then finds `"A"` already recorded with a null stored next
link and terminates in the Done state (`current = none`) after zero
fetches — but that branch (crawler.py:467-469) performs no save, so every
ledger ever persisted carries the non-null cursor `"A"`, contradicting the
claim that the file ends with a null `next_expected_chapter_url`. -/
theorem done_via_skip_leaves_stale_cursor :
    (download_story failWorld 5 "F" none (some "OV") none none staleCursorLedger).map
        runSummary
      = some (none, [], [some "A"]) := by
  rfl

/-! ## C6: the cursor-matches-last-chapter invariant -/

/-- The urls recorded in a chapters list. -/
def urlsOf (chs : List ChapterRecord) : List String := chs.map ChapterRecord.url

/-- The value the invariant expects a non-null cursor to have: the stored
next link of the last chapter, or the run's starting URL when the list is
empty. -/
def lastNextOf (chs : List ChapterRecord) (start : String) : Option String :=
  match chs.getLast? with
  | some r => r.next_url_from_page
  | none => some start

/-- The chapters list is a linked chain: each record's stored next link is
the url of the following record. -/
def chainOk : List ChapterRecord → Prop
  | [] => True
  | [_] => True
  | r1 :: r2 :: rest =>
    r1.next_url_from_page = some r2.url ∧ chainOk (r2 :: rest)

/-- The spec's cursor invariant for one ledger value: a non-null
`next_expected_chapter_url` equals the `next_url_from_page` of the last
chapter, or the starting URL when `chapters` is empty. -/
def cursorOk (start : String) (L : Ledger) : Prop :=
  ∀ v, L.next_expected_chapter_url = some v → lastNextOf L.chapters start = some v

/-- The in-flight counterpart for the loop's current URL: it is where the
chain ends, or the url of some already-recorded chapter (reachable while
skipping over previously downloaded chapters). -/
def currentOk (start : String) (s : CrawlState) : Prop :=
  ∀ v, s.current = some v →
    lastNextOf s.ledger.chapters start = some v ∨ v ∈ urlsOf s.ledger.chapters

/-- The full C6 loop invariant. -/
def InvC6 (start : String) (s : CrawlState) : Prop :=
  chainOk s.ledger.chapters ∧ currentOk start s ∧ ∀ L ∈ s.saves, cursorOk start L

/-- Following the stored next link of any chapter of a chain leads either
to the chain's end value or to the url of some chapter of the chain. -/
theorem chain_next_of_mem {e : ChapterRecord} {v start : String} :
    ∀ {chs : List ChapterRecord}, chainOk chs → e ∈ chs →
      e.next_url_from_page = some v →
      lastNextOf chs start = some v ∨ v ∈ urlsOf chs := by
  intro chs
  induction chs with
  | nil => intro _ h; simp at h
  | cons r1 rest ih =>
    intro hchain hmem hnext
    cases rest with
    | nil =>
      rcases List.mem_singleton.mp hmem with rfl
      left
      rw [lastNextOf]
      simpa using hnext
    | cons r2 rest2 =>
      obtain ⟨h12, hrest⟩ := hchain
      rcases List.mem_cons.mp hmem with rfl | hmem2
      · right
        rw [hnext] at h12
        obtain rfl : v = r2.url := by
          have := Option.some.inj h12
          exact this
        simp [urlsOf]
      · rcases ih hrest hmem2 hnext with h | h
        · left
          rw [lastNextOf] at h ⊢
          simpa using h
        · right
          simp only [urlsOf, List.map_cons, List.mem_cons]
          right
          simpa [urlsOf] using h

/-- Appending a record whose url is the chain's end value keeps the list a
chain. -/
theorem chainOk_append {r : ChapterRecord} :
    ∀ {chs : List ChapterRecord}, chainOk chs →
      (∀ l, chs.getLast? = some l → l.next_url_from_page = some r.url) →
      chainOk (chs ++ [r]) := by
  intro chs
  induction chs with
  | nil => intro _ _; trivial
  | cons r1 rest ih =>
    intro hchain hlast
    cases rest with
    | nil =>
      exact ⟨hlast r1 rfl, trivial⟩
    | cons r2 rest2 =>
      obtain ⟨h12, hrest⟩ := hchain
      refine ⟨h12, ih hrest ?_⟩
      intro l hl
      exact hlast l (by simpa using hl)

/-- The chain-end value after appending a record is that record's stored
next link. -/
theorem lastNextOf_concat (chs : List ChapterRecord) (r : ChapterRecord)
    (start : String) :
    lastNextOf (chs ++ [r]) start = r.next_url_from_page := by
  rw [lastNextOf]
  simp

/-- A url for which the linear scan finds nothing is not recorded. -/
theorem not_mem_urlsOf_of_findEntry_none {chs : List ChapterRecord} {u : String}
    (h : findEntry chs u = none) : u ∉ urlsOf chs := by
  intro hmem
  rw [findEntry, List.find?_eq_none] at h
  obtain ⟨r, hr, hru⟩ := List.mem_map.mp hmem
  exact h r hr (by simp [hru])

/-- The entry found by the linear scan is a recorded chapter with the
searched url. -/
theorem findEntry_some_spec {chs : List ChapterRecord} {u : String}
    {e : ChapterRecord} (h : findEntry chs u = some e) :
    e ∈ chs ∧ e.url = u := by
  refine ⟨List.mem_of_find?_eq_some h, ?_⟩
  have := List.find?_some h
  simpa using this

/-- One loop iteration preserves the C6 invariant (for a continuing step)
and only saves ledgers satisfying the cursor invariant (for a stopping
step). -/
theorem crawlStep_C6 (start : String) (w : World) (slug : Option String)
    (u : String) (s : CrawlState) (hcur : s.current = some u)
    (hInv : InvC6 start s) :
    (∀ s1, crawlStep w slug u s = .next s1 → InvC6 start s1) ∧
    (∀ s1, crawlStep w slug u s = .stop s1 → ∀ L ∈ s1.saves, cursorOk start L) := by
  obtain ⟨hchain, hcurok, hsaves⟩ := hInv
  constructor
  · intro s1 hstep
    rw [crawlStep] at hstep
    cases hfind : findEntry s.ledger.chapters u with
    | some e =>
      simp only [hfind] at hstep
      obtain ⟨heMem, heUrl⟩ := findEntry_some_spec hfind
      split at hstep
      · obtain rfl := StepResult.next.inj hstep
        refine ⟨hchain, ?_, hsaves⟩
        intro v hv
        exact chain_next_of_mem hchain heMem hv
      · simp at hstep
    | none =>
      simp only [hfind] at hstep
      have hnotmem := not_mem_urlsOf_of_findEntry_none hfind
      have hlast : lastNextOf s.ledger.chapters start = some u := by
        rcases hcurok u hcur with h | h
        · exact h
        · exact absurd h hnotmem
      cases hw : w u with
      | fetchFail =>
        simp only [hw] at hstep
        simp at hstep
      | fetchOk resolved ctype ts writeOk page =>
        simp only [hw] at hstep
        split at hstep
        · simp at hstep
        · split at hstep
          · simp at hstep
          · split at hstep
            · simp at hstep
            · split at hstep
              · simp at hstep
              · obtain rfl := StepResult.next.inj hstep
                refine ⟨?_, ?_, ?_⟩
                · refine chainOk_append hchain ?_
                  intro l hl
                  rw [lastNextOf, hl] at hlast
                  exact hlast
                · intro v hv
                  left
                  rw [lastNextOf_concat]
                  exact hv
                · intro L hL
                  rcases List.mem_append.mp hL with h | h
                  · exact hsaves L h
                  · rcases List.mem_singleton.mp h with rfl
                    intro v hv
                    rw [lastNextOf_concat]
                    exact hv
  · intro s1 hstep
    rw [crawlStep] at hstep
    cases hfind : findEntry s.ledger.chapters u with
    | some e =>
      simp only [hfind] at hstep
      split at hstep
      · simp at hstep
      · obtain rfl := StepResult.stop.inj hstep
        exact hsaves
    | none =>
      simp only [hfind] at hstep
      have hnotmem := not_mem_urlsOf_of_findEntry_none hfind
      have hlast : lastNextOf s.ledger.chapters start = some u := by
        rcases hcurok u hcur with h | h
        · exact h
        · exact absurd h hnotmem
      cases hw : w u with
      | fetchFail =>
        simp only [hw] at hstep
        obtain rfl := StepResult.stop.inj hstep
        intro L hL
        rcases List.mem_append.mp hL with h | h
        · exact hsaves L h
        · rcases List.mem_singleton.mp h with rfl
          intro v hv
          obtain rfl : u = v := by simpa using hv
          exact hlast
      | fetchOk resolved ctype ts writeOk page =>
        simp only [hw] at hstep
        split at hstep
        · obtain rfl := StepResult.stop.inj hstep
          intro L hL
          rcases List.mem_append.mp hL with h | h
          · exact hsaves L h
          · rcases List.mem_singleton.mp h with rfl
            intro v hv
            simp at hv
        · split at hstep
          · obtain rfl := StepResult.stop.inj hstep
            intro L hL
            rcases List.mem_append.mp hL with h | h
            · exact hsaves L h
            · rcases List.mem_singleton.mp h with rfl
              intro v hv
              obtain rfl : u = v := by simpa using hv
              exact hlast
          · split at hstep
            · obtain rfl := StepResult.stop.inj hstep
              intro L hL
              rcases List.mem_append.mp hL with h | h
              · exact hsaves L h
              · rcases List.mem_singleton.mp h with rfl
                intro v hv
                rw [lastNextOf_concat]
                exact hv
            · split at hstep
              · obtain rfl := StepResult.stop.inj hstep
                intro L hL
                rcases List.mem_append.mp hL with h | h
                · exact hsaves L h
                · rcases List.mem_cons.mp h with rfl | h2
                  · intro v hv
                    rw [lastNextOf_concat]
                    exact hv
                  · rcases List.mem_singleton.mp h2 with rfl
                    intro v hv
                    simp at hv
              · simp at hstep

/-- Any terminating run of the download loop from an invariant-satisfying
state only ever saved cursor-consistent ledgers. -/
theorem crawlRun_C6 (start : String) (w : World) (slug : Option String) :
    ∀ (fuel : Nat) (s s1 : CrawlState), InvC6 start s →
      crawlRun w slug fuel s = some s1 → ∀ L ∈ s1.saves, cursorOk start L := by
  intro fuel
  induction fuel with
  | zero =>
    intro s s1 _ h
    simp [crawlRun] at h
  | succ n ih =>
    intro s s1 hInv hrun
    rw [crawlRun] at hrun
    cases hc : s.current with
    | none =>
      simp only [hc] at hrun
      obtain rfl := Option.some.inj hrun
      exact hInv.2.2
    | some u =>
      simp only [hc] at hrun
      by_cases hu : (u == "") = true
      · rw [if_pos hu] at hrun
        obtain rfl := Option.some.inj hrun
        exact hInv.2.2
      · rw [if_neg hu] at hrun
        cases hstep : crawlStep w slug u s with
        | stop s2 =>
          simp only [hstep] at hrun
          obtain rfl := Option.some.inj hrun
          exact (crawlStep_C6 start w slug u s hc hInv).2 s2 hstep
        | next s2 =>
          simp only [hstep] at hrun
          exact ih s2 s1 ((crawlStep_C6 start w slug u s hc hInv).1 s2 hstep) hrun

/-- C6 (amended).  After every ledger save performed by the crawl loop, if
`next_expected_chapter_url` is non-null then it equals the
`next_url_from_page` of the last element of `chapters`, or the starting
URL when `chapters` is empty — provided the loop started from a state
satisfying the invariant: the chapters list is a linked chain, the
current URL is the chain's end or an already-recorded url, and all
previously saved ledgers are cursor-consistent.  A fresh start (empty
chapters, current = starting URL, no saves) satisfies this trivially; a
resume from an inconsistent loaded ledger refutes the unconditional
claim (see the counterexample). -/
theorem cursor_matches_last_chapter_invariant
    (w : World) (slug : Option String) (fuel : Nat) (start : String)
    (s s1 : CrawlState)
    (hchain : chainOk s.ledger.chapters)
    (hcurrent : currentOk start s)
    (hsaves : ∀ L ∈ s.saves, cursorOk start L)
    (hrun : crawlRun w slug fuel s = some s1) :
    ∀ L ∈ s1.saves, cursorOk start L :=
  crawlRun_C6 start w slug fuel s s1 ⟨hchain, hcurrent, hsaves⟩ hrun

/-- The single ledger saved by the one-chapter run of `c5World`. -/
def c5SavedLedger : Ledger :=
  { overview_url := none, story_title := none, author_name := none,
    last_downloaded_url := some "E", next_expected_chapter_url := none,
    chapters := [{ url := "E", title := "End",
                   filename := "chapter_001_End.html",
                   download_timestamp := "t", next_url_from_page := none,
                   download_order := 1 }] }

/-- The full final state of the one-chapter run of `c5World`. -/
def c5Final : CrawlState :=
  { ledger := c5SavedLedger, current := none, counter := 1,
    fetches := ["E"], saves := [c5SavedLedger] }

/-- Witness for C6: the fresh one-chapter run of `c5World` satisfies the
invariant's hypotheses, and the ledger it saves is cursor-consistent. -/
theorem cursor_matches_last_chapter_invariant_witness :
    cursorOk "E" c5SavedLedger := by
  have h := cursor_matches_last_chapter_invariant c5World none 5 "E" c5Start c5Final
    trivial
    (by
      intro v hv
      left
      obtain rfl : "E" = v := by simpa [c5Start] using hv
      rfl)
    (by intro L hL; simp [c5Start] at hL)
    (by rfl)
  exact h c5SavedLedger (List.mem_singleton.mpr rfl)

/-- The cursors of every ledger passed to `_save_download_status`. -/
def savedCursors (s : CrawlState) : List (Option String) :=
  s.saves.map Ledger.next_expected_chapter_url

/-- The stored next links of the chapters of every saved ledger. -/
def savedChapterNexts (s : CrawlState) : List (List (Option String)) :=
  s.saves.map (fun L => L.chapters.map ChapterRecord.next_url_from_page)

/-- A loadable ledger violating the cursor invariant: its cursor `"C"` is
not the stored next link `"B"` of its last (and only) chapter. -/
def inconsistentLedger : Ledger :=
  { emptyLedger with
      next_expected_chapter_url := some "C", chapters := [sampleRec] }

/-- Counterexample for C6 as stated.  Resuming from `inconsistentLedger`
(the chapters list is kept because the cursor is non-blank), the fetch of
`"C"` fails and the loop saves a ledger whose cursor is `some "C"` while
the last chapter's `next_url_from_page` is `some "B"` and `chapters` is
non-empty — the claimed invariant does not hold for this loop save. -/
theorem cursor_invariant_fails_on_inconsistent_resume :
    (download_story failWorld 5 "F" none none none none inconsistentLedger).map
        savedCursors = some [some "C"] ∧
    (download_story failWorld 5 "F" none none none none inconsistentLedger).map
        savedChapterNexts = some [[some "B"]] ∧
    (some "C" : Option String) ≠ some "B" :=
  ⟨rfl, rfl, by decide⟩

/-! ## C7: the download-order numbering invariant -/

/-- The `download_order` fields of a chapters list, in list order. -/
def ordersOf (chs : List ChapterRecord) : List Nat :=
  chs.map ChapterRecord.download_order

/-- The claim's ordering property: the orders are exactly `1..len` in list
order. -/
def ordersOk (chs : List ChapterRecord) : Prop :=
  ordersOf chs = List.range' 1 chs.length

/-- The C7 loop invariant: well-numbered chapters, the counter one past the
list length, and only well-numbered saves so far. -/
def InvC7 (s : CrawlState) : Prop :=
  ordersOk s.ledger.chapters ∧ s.counter = s.ledger.chapters.length + 1 ∧
  ∀ L ∈ s.saves, ordersOk L.chapters

/-- Appending a record numbered `len + 1` keeps the list well-numbered. -/
theorem ordersOk_append {chs : List ChapterRecord} {r : ChapterRecord}
    (h : ordersOk chs) (hr : r.download_order = chs.length + 1) :
    ordersOk (chs ++ [r]) := by
  unfold ordersOk ordersOf at h ⊢
  rw [List.map_append, h, List.length_append]
  simp [hr, List.range'_1_concat, Nat.add_comm]

/-- One loop iteration preserves the C7 invariant, and a stopping
iteration leaves only well-numbered ledgers (in memory and saved). -/
theorem crawlStep_C7 (w : World) (slug : Option String) (u : String)
    (s : CrawlState) (hInv : InvC7 s) :
    (∀ s1, crawlStep w slug u s = .next s1 → InvC7 s1) ∧
    (∀ s1, crawlStep w slug u s = .stop s1 →
      ordersOk s1.ledger.chapters ∧ ∀ L ∈ s1.saves, ordersOk L.chapters) := by
  obtain ⟨hord, hcount, hsaves⟩ := hInv
  constructor
  · intro s1 hstep
    rw [crawlStep] at hstep
    cases hfind : findEntry s.ledger.chapters u with
    | some e =>
      simp only [hfind] at hstep
      split at hstep
      · obtain rfl := StepResult.next.inj hstep
        exact ⟨hord, hcount, hsaves⟩
      · simp at hstep
    | none =>
      simp only [hfind] at hstep
      cases hw : w u with
      | fetchFail =>
        simp only [hw] at hstep
        simp at hstep
      | fetchOk resolved ctype ts writeOk page =>
        simp only [hw] at hstep
        split at hstep
        · simp at hstep
        · split at hstep
          · simp at hstep
          · split at hstep
            · simp at hstep
            · split at hstep
              · simp at hstep
              · obtain rfl := StepResult.next.inj hstep
                have hnew : ordersOk (s.ledger.chapters ++
                    [mkChapterRecord slug s.counter u ts page]) :=
                  ordersOk_append hord (by simpa [mkChapterRecord] using hcount)
                refine ⟨hnew, ?_, ?_⟩
                · simp [List.length_append, hcount]
                · intro L hL
                  rcases List.mem_append.mp hL with h | h
                  · exact hsaves L h
                  · rcases List.mem_singleton.mp h with rfl
                    exact hnew
  · intro s1 hstep
    rw [crawlStep] at hstep
    cases hfind : findEntry s.ledger.chapters u with
    | some e =>
      simp only [hfind] at hstep
      split at hstep
      · simp at hstep
      · obtain rfl := StepResult.stop.inj hstep
        exact ⟨hord, hsaves⟩
    | none =>
      simp only [hfind] at hstep
      cases hw : w u with
      | fetchFail =>
        simp only [hw] at hstep
        obtain rfl := StepResult.stop.inj hstep
        refine ⟨hord, ?_⟩
        intro L hL
        rcases List.mem_append.mp hL with h | h
        · exact hsaves L h
        · rcases List.mem_singleton.mp h with rfl
          exact hord
      | fetchOk resolved ctype ts writeOk page =>
        simp only [hw] at hstep
        have hnew : ordersOk (s.ledger.chapters ++
            [mkChapterRecord slug s.counter u ts page]) :=
          ordersOk_append hord (by simpa [mkChapterRecord] using hcount)
        split at hstep
        · obtain rfl := StepResult.stop.inj hstep
          refine ⟨hord, ?_⟩
          intro L hL
          rcases List.mem_append.mp hL with h | h
          · exact hsaves L h
          · rcases List.mem_singleton.mp h with rfl
            exact hord
        · split at hstep
          · obtain rfl := StepResult.stop.inj hstep
            refine ⟨hord, ?_⟩
            intro L hL
            rcases List.mem_append.mp hL with h | h
            · exact hsaves L h
            · rcases List.mem_singleton.mp h with rfl
              exact hord
          · split at hstep
            · obtain rfl := StepResult.stop.inj hstep
              refine ⟨hnew, ?_⟩
              intro L hL
              rcases List.mem_append.mp hL with h | h
              · exact hsaves L h
              · rcases List.mem_singleton.mp h with rfl
                exact hnew
            · split at hstep
              · obtain rfl := StepResult.stop.inj hstep
                refine ⟨hnew, ?_⟩
                intro L hL
                rcases List.mem_append.mp hL with h | h
                · exact hsaves L h
                · rcases List.mem_cons.mp h with rfl | h2
                  · exact hnew
                  · rcases List.mem_singleton.mp h2 with rfl
                    exact hnew
              · simp at hstep

/-- Any terminating run from a well-numbered state leaves only
well-numbered ledgers. -/
theorem crawlRun_C7 (w : World) (slug : Option String) :
    ∀ (fuel : Nat) (s s1 : CrawlState), InvC7 s →
      crawlRun w slug fuel s = some s1 →
      ordersOk s1.ledger.chapters ∧ ∀ L ∈ s1.saves, ordersOk L.chapters := by
  intro fuel
  induction fuel with
  | zero =>
    intro s s1 _ h
    simp [crawlRun] at h
  | succ n ih =>
    intro s s1 hInv hrun
    rw [crawlRun] at hrun
    cases hc : s.current with
    | none =>
      simp only [hc] at hrun
      obtain rfl := Option.some.inj hrun
      exact ⟨hInv.1, hInv.2.2⟩
    | some u =>
      simp only [hc] at hrun
      by_cases hu : (u == "") = true
      · rw [if_pos hu] at hrun
        obtain rfl := Option.some.inj hrun
        exact ⟨hInv.1, hInv.2.2⟩
      · rw [if_neg hu] at hrun
        cases hstep : crawlStep w slug u s with
        | stop s2 =>
          simp only [hstep] at hrun
          obtain rfl := Option.some.inj hrun
          exact (crawlStep_C7 w slug u s hInv).2 s2 hstep
        | next s2 =>
          simp only [hstep] at hrun
          exact ih s2 s1 ((crawlStep_C7 w slug u s hInv).1 s2 hstep) hrun

/-- C7 (amended).  In every ledger state produced by the crawl — the final
in-memory state and every state passed to `_save_download_status` — the
`download_order` fields of `chapters` are exactly `1, 2, ..., len` in
list order, provided the run started with a well-numbered chapters list,
the counter equal to `len + 1` (which `download_story` guarantees), and
well-numbered prior saves.  A fresh start satisfies this trivially; a
resume from a loaded ledger with arbitrary `download_order` values
refutes the unconditional claim (see the counterexample). -/
theorem download_orders_enumerate_positions
    (w : World) (slug : Option String) (fuel : Nat) (s s1 : CrawlState)
    (hord : ordersOk s.ledger.chapters)
    (hcount : s.counter = s.ledger.chapters.length + 1)
    (hsaves : ∀ L ∈ s.saves, ordersOk L.chapters)
    (hrun : crawlRun w slug fuel s = some s1) :
    ordersOk s1.ledger.chapters ∧ ∀ L ∈ s1.saves, ordersOk L.chapters :=
  crawlRun_C7 w slug fuel s s1 ⟨hord, hcount, hsaves⟩ hrun

/-- Witness for C7: the fresh one-chapter run of `c5World` produces a
ledger numbered `[1]`. -/
theorem download_orders_enumerate_positions_witness :
    ordersOk c5Final.ledger.chapters ∧ ordersOk c5SavedLedger.chapters := by
  have h := download_orders_enumerate_positions c5World none 5 c5Start c5Final
    rfl rfl (by intro L hL; simp [c5Start] at hL) (by rfl)
  exact ⟨h.1, h.2 c5SavedLedger (List.mem_singleton.mpr rfl)⟩

/-- The `download_order` fields of the final in-memory chapters list. -/
def chapterOrders (s : CrawlState) : List Nat :=
  ordersOf s.ledger.chapters

/-- A loadable ledger whose single chapter carries `download_order = 7`. -/
def misnumberedLedger : Ledger :=
  { emptyLedger with
      next_expected_chapter_url := some "B",
      chapters := [{ url := "A", title := "T", filename := "f.html",
                     download_timestamp := "ts",
                     next_url_from_page := some "B", download_order := 7 }] }

/-- A world serving `"B"` as a final chapter with no next link. -/
def c7World : World := fun u =>
  if u == "B" then
    .fetchOk "B" "text/html" "t" true
      { title := "Two", contentHtml := "c", nextChapterUrl := none }
  else .fetchFail

/-- Counterexample for C7 as stated.  Resuming from `misnumberedLedger`
and downloading the one remaining chapter yields a persisted chapters
list whose `download_order` values are `[7, 2]`, not `[1, 2]`: the claim
fails for resumed runs whose loaded prefix is not numbered `1..len`. -/
theorem download_orders_fail_on_misnumbered_resume :
    (download_story c7World 5 "F" none none none none misnumberedLedger).map
        chapterOrders = some [7, 2] ∧
    ([7, 2] : List Nat) ≠ [1, 2] :=
  ⟨rfl, by decide⟩

/-! ## C8: no duplicate chapter urls, no re-fetching -/

/-- The C8 loop invariant: distinct recorded urls, a duplicate-free fetch
log, every fetched URL already recorded (it was appended right after its
fetch), and only duplicate-free ledgers saved so far. -/
def InvC8 (s : CrawlState) : Prop :=
  (urlsOf s.ledger.chapters).Nodup ∧ s.fetches.Nodup ∧
  (∀ v ∈ s.fetches, v ∈ urlsOf s.ledger.chapters) ∧
  (∀ L ∈ s.saves, (urlsOf L.chapters).Nodup)

/-- The urls after appending one record. -/
theorem urlsOf_append (chs : List ChapterRecord) (r : ChapterRecord) :
    urlsOf (chs ++ [r]) = urlsOf chs ++ [r.url] := by
  simp [urlsOf]

/-- Appending a fresh element preserves distinctness. -/
theorem nodup_append_singleton {α : Type} {l : List α} {a : α}
    (h : l.Nodup) (ha : a ∉ l) : (l ++ [a]).Nodup := by
  simp [List.nodup_append, h, ha]

/-- One loop iteration preserves the C8 invariant (continuing step), or
directly yields the C8 conclusions (stopping step): distinct urls in the
final and in every saved ledger, a duplicate-free fetch log, and no fetch
of a previously recorded URL. -/
theorem crawlStep_C8 (w : World) (slug : Option String) (u : String)
    (s : CrawlState) (hInv : InvC8 s) :
    (∀ s1, crawlStep w slug u s = .next s1 → InvC8 s1 ∧
      urlsOf s.ledger.chapters ⊆ urlsOf s1.ledger.chapters ∧
      (∀ v ∈ urlsOf s.ledger.chapters, v ∈ s1.fetches → v ∈ s.fetches)) ∧
    (∀ s1, crawlStep w slug u s = .stop s1 →
      (urlsOf s1.ledger.chapters).Nodup ∧ s1.fetches.Nodup ∧
      (∀ L ∈ s1.saves, (urlsOf L.chapters).Nodup) ∧
      (∀ v ∈ urlsOf s.ledger.chapters, v ∈ s1.fetches → v ∈ s.fetches)) := by
  obtain ⟨hnd, hfnd, hfu, hsaves⟩ := hInv
  constructor
  · intro s1 hstep
    rw [crawlStep] at hstep
    cases hfind : findEntry s.ledger.chapters u with
    | some e =>
      simp only [hfind] at hstep
      split at hstep
      · obtain rfl := StepResult.next.inj hstep
        exact ⟨⟨hnd, hfnd, hfu, hsaves⟩, fun v hv => hv, fun v _ hv => hv⟩
      · simp at hstep
    | none =>
      simp only [hfind] at hstep
      have hnotmem := not_mem_urlsOf_of_findEntry_none hfind
      have hufetch : u ∉ s.fetches := fun hc => hnotmem (hfu u hc)
      cases hw : w u with
      | fetchFail =>
        simp only [hw] at hstep
        simp at hstep
      | fetchOk resolved ctype ts writeOk page =>
        simp only [hw] at hstep
        split at hstep
        · simp at hstep
        · split at hstep
          · simp at hstep
          · split at hstep
            · simp at hstep
            · split at hstep
              · simp at hstep
              · obtain rfl := StepResult.next.inj hstep
                have hurl : (mkChapterRecord slug s.counter u ts page).url = u := rfl
                refine ⟨⟨?_, ?_, ?_, ?_⟩, ?_, ?_⟩
                · rw [urlsOf_append, hurl]
                  exact nodup_append_singleton hnd hnotmem
                · exact nodup_append_singleton hfnd hufetch
                · intro v hv
                  rw [urlsOf_append, hurl]
                  rcases List.mem_append.mp hv with h | h
                  · exact List.mem_append.mpr (Or.inl (hfu v h))
                  · exact List.mem_append.mpr (Or.inr h)
                · intro L hL
                  rcases List.mem_append.mp hL with h | h
                  · exact hsaves L h
                  · rcases List.mem_singleton.mp h with rfl
                    rw [urlsOf_append, hurl]
                    exact nodup_append_singleton hnd hnotmem
                · intro v hv
                  rw [urlsOf_append]
                  exact List.mem_append.mpr (Or.inl hv)
                · intro v hv hvf
                  rcases List.mem_append.mp hvf with h | h
                  · exact h
                  · rcases List.mem_singleton.mp h with rfl
                    exact absurd hv hnotmem
  · intro s1 hstep
    rw [crawlStep] at hstep
    cases hfind : findEntry s.ledger.chapters u with
    | some e =>
      simp only [hfind] at hstep
      split at hstep
      · simp at hstep
      · obtain rfl := StepResult.stop.inj hstep
        exact ⟨hnd, hfnd, hsaves, fun v _ hv => hv⟩
    | none =>
      simp only [hfind] at hstep
      have hnotmem := not_mem_urlsOf_of_findEntry_none hfind
      have hufetch : u ∉ s.fetches := fun hc => hnotmem (hfu u hc)
      have hfetchnd : (s.fetches ++ [u]).Nodup := nodup_append_singleton hfnd hufetch
      have hnofetch : ∀ v ∈ urlsOf s.ledger.chapters,
          v ∈ s.fetches ++ [u] → v ∈ s.fetches := by
        intro v hv hvf
        rcases List.mem_append.mp hvf with h | h
        · exact h
        · rcases List.mem_singleton.mp h with rfl
          exact absurd hv hnotmem
      cases hw : w u with
      | fetchFail =>
        simp only [hw] at hstep
        obtain rfl := StepResult.stop.inj hstep
        refine ⟨hnd, hfetchnd, ?_, hnofetch⟩
        intro L hL
        rcases List.mem_append.mp hL with h | h
        · exact hsaves L h
        · rcases List.mem_singleton.mp h with rfl
          exact hnd
      | fetchOk resolved ctype ts writeOk page =>
        simp only [hw] at hstep
        have hurl : (mkChapterRecord slug s.counter u ts page).url = u := rfl
        have hndnew : (urlsOf (s.ledger.chapters ++
            [mkChapterRecord slug s.counter u ts page])).Nodup := by
          rw [urlsOf_append, hurl]
          exact nodup_append_singleton hnd hnotmem
        split at hstep
        · obtain rfl := StepResult.stop.inj hstep
          refine ⟨hnd, hfetchnd, ?_, hnofetch⟩
          intro L hL
          rcases List.mem_append.mp hL with h | h
          · exact hsaves L h
          · rcases List.mem_singleton.mp h with rfl
            exact hnd
        · split at hstep
          · obtain rfl := StepResult.stop.inj hstep
            refine ⟨hnd, hfetchnd, ?_, hnofetch⟩
            intro L hL
            rcases List.mem_append.mp hL with h | h
            · exact hsaves L h
            · rcases List.mem_singleton.mp h with rfl
              exact hnd
          · split at hstep
            · obtain rfl := StepResult.stop.inj hstep
              refine ⟨hndnew, hfetchnd, ?_, hnofetch⟩
              intro L hL
              rcases List.mem_append.mp hL with h | h
              · exact hsaves L h
              · rcases List.mem_singleton.mp h with rfl
                exact hndnew
            · split at hstep
              · obtain rfl := StepResult.stop.inj hstep
                refine ⟨hndnew, hfetchnd, ?_, hnofetch⟩
                intro L hL
                rcases List.mem_append.mp hL with h | h
                · exact hsaves L h
                · rcases List.mem_cons.mp h with rfl | h2
                  · exact hndnew
                  · rcases List.mem_singleton.mp h2 with rfl
                    exact hndnew
              · simp at hstep

/-- Any terminating run from a duplicate-free state keeps urls distinct in
every ledger it touches, fetches no URL twice, and never fetches a URL
that was already recorded when the run began. -/
theorem crawlRun_C8 (w : World) (slug : Option String) :
    ∀ (fuel : Nat) (s s1 : CrawlState), InvC8 s →
      crawlRun w slug fuel s = some s1 →
      (urlsOf s1.ledger.chapters).Nodup ∧ s1.fetches.Nodup ∧
      (∀ L ∈ s1.saves, (urlsOf L.chapters).Nodup) ∧
      (∀ v ∈ urlsOf s.ledger.chapters, v ∈ s1.fetches → v ∈ s.fetches) := by
  intro fuel
  induction fuel with
  | zero =>
    intro s s1 _ h
    simp [crawlRun] at h
  | succ n ih =>
    intro s s1 hInv hrun
    rw [crawlRun] at hrun
    cases hc : s.current with
    | none =>
      simp only [hc] at hrun
      obtain rfl := Option.some.inj hrun
      exact ⟨hInv.1, hInv.2.1, hInv.2.2.2, fun v _ hv => hv⟩
    | some u =>
      simp only [hc] at hrun
      by_cases hu : (u == "") = true
      · rw [if_pos hu] at hrun
        obtain rfl := Option.some.inj hrun
        exact ⟨hInv.1, hInv.2.1, hInv.2.2.2, fun v _ hv => hv⟩
      · rw [if_neg hu] at hrun
        cases hstep : crawlStep w slug u s with
        | stop s2 =>
          simp only [hstep] at hrun
          obtain rfl := Option.some.inj hrun
          exact (crawlStep_C8 w slug u s hInv).2 s2 hstep
        | next s2 =>
          simp only [hstep] at hrun
          obtain ⟨hInv2, hsub, hkeep⟩ := (crawlStep_C8 w slug u s hInv).1 s2 hstep
          obtain ⟨h1, h2, h3, h4⟩ := ih s2 s1 hInv2 hrun
          refine ⟨h1, h2, h3, ?_⟩
          intro v hv hvf
          exact hkeep v hv (h4 v (hsub hv) hvf)

/-- C8 (amended).  For every crawl run starting from a state whose
recorded urls are distinct (in particular every fresh start), every
ledger state it persists and its final chapters list contain no two
records with the same url, no URL is ever passed to the fetcher twice,
and a URL recorded at the start of the run is never fetched.  A resume
from a loaded ledger that already contains duplicate urls refutes the
unconditional claim (see the counterexample). -/
theorem no_duplicate_urls_and_no_refetch
    (w : World) (slug : Option String) (fuel : Nat) (s s1 : CrawlState)
    (hnd : (urlsOf s.ledger.chapters).Nodup) (hfnd : s.fetches.Nodup)
    (hfu : ∀ v ∈ s.fetches, v ∈ urlsOf s.ledger.chapters)
    (hsaves : ∀ L ∈ s.saves, (urlsOf L.chapters).Nodup)
    (hrun : crawlRun w slug fuel s = some s1) :
    (urlsOf s1.ledger.chapters).Nodup ∧ s1.fetches.Nodup ∧
    (∀ L ∈ s1.saves, (urlsOf L.chapters).Nodup) ∧
    (∀ v ∈ urlsOf s.ledger.chapters, v ∈ s1.fetches → v ∈ s.fetches) :=
  crawlRun_C8 w slug fuel s s1 ⟨hnd, hfnd, hfu, hsaves⟩ hrun

/-- Witness for C8: the fresh one-chapter run of `c5World` ends with
distinct urls and a duplicate-free fetch log. -/
theorem no_duplicate_urls_and_no_refetch_witness :
    (urlsOf c5Final.ledger.chapters).Nodup ∧ c5Final.fetches.Nodup ∧
    (urlsOf c5SavedLedger.chapters).Nodup := by
  have h := no_duplicate_urls_and_no_refetch c5World none 5 c5Start c5Final
    (by simp [c5Start, emptyLedger, urlsOf])
    (by simp [c5Start])
    (by intro v hv; simp [c5Start] at hv)
    (by intro L hL; simp [c5Start] at hL)
    (by rfl)
  exact ⟨h.1, h.2.1, h.2.2.1 c5SavedLedger (List.mem_singleton.mpr rfl)⟩

/-- The recorded urls of every saved ledger of a run. -/
def savedChapterUrls (s : CrawlState) : List (List String) :=
  s.saves.map (fun L => urlsOf L.chapters)

/-- A loadable ledger that already contains two records with the same url. -/
def dupLedger : Ledger :=
  { emptyLedger with
      next_expected_chapter_url := some "C",
      chapters := [sampleRec, sampleRec] }

/-- Counterexample for C8 as stated.  Resuming from `dupLedger` (cursor
`"C"` is non-blank, so the duplicated chapters list is kept) and failing
the fetch of `"C"`, the loop persists a ledger whose chapters carry the
urls `["A", "A"]` — two records with the same url. -/
theorem duplicates_survive_on_corrupt_resume :
    (download_story failWorld 5 "F" none none none none dupLedger).map
        savedChapterUrls = some [["A", "A"]] ∧
    ¬ (["A", "A"] : List String).Nodup :=
  ⟨rfl, by decide⟩
